import Mathlib

/-!
Verification development for the `graphAttack` computation-graph core
(`graphAttack/coreGraph.py`).

The graph classes `basicGraph` and `Graph` are embedded shallowly.  Nodes
(`Variable`, `CostOperation`, generic operations) live in
`coreDataContainers.py` / `coreOperation.py`, which are not part of the
sources available here; the parts of their behaviour the graph code relies
on (kind discriminants, fixed `inputs`, `outputs` back-references, memoized
value/gradient retrieval, `assignData`, `reset`, the `testing` flag and the
`makePredictions` capability of cost operations) are modelled from the
specification's node capability contract and marked as such below.

Python objects are named by natural-number identities (`Nat`); numpy arrays
are modelled as a shape together with row-major flat data over `Rat`.
Run-time mutation is explicit state passing; a raised exception is an
`Option GraphError` / failed `Option` result, with any mutations performed
before the raise preserved in the returned state, matching Python
semantics.
-/

namespace GraphAttack


/-- A numpy array: a shape and its row-major flat data (`np.ravel` order).
`np.size` is `data.length`; `np.reshape` succeeds exactly when the flat
length matches the product of the requested shape. -/
structure Arr where
  shape : List Nat
  data : List Rat
  deriving DecidableEq, Repr


/-- `np.size`. -/
def Arr.size (a : Arr) : Nat := a.data.length


/-- A well-formed numpy array has as many elements as its shape prescribes. -/
def Arr.wf (a : Arr) : Prop := a.data.length = a.shape.prod


instance (a : Arr) : Decidable a.wf := by unfold Arr.wf; infer_instance


/-- `np.reshape flat shape`: fails (raises) unless the lengths agree. -/
def reshape (flat : List Rat) (shape : List Nat) : Option Arr :=
  if flat.length = shape.prod then some ⟨shape, flat⟩ else none


/-- Elementwise sum of two arrays, defined when the shapes agree; used for
chain-rule accumulation across consumers. -/
def addArr (a b : Arr) : Option Arr :=
  if a.shape = b.shape ∧ a.data.length = b.data.length then
    some ⟨a.shape, List.zipWith (· + ·) a.data b.data⟩
  else none


/-- The outcome a cost operation's prediction capability hands back to the
graph: updated per-node caches plus the prediction value (`none` models a
raised exception).  The capability can touch caches but, structurally, not
the graph-wide `testing` flags or any variable's data. -/
structure PredictResult where
  resultCache : Nat → Option Arr
  gradCache : Nat → Option Arr
  value : Option Arr


/-- Modelled from the spec: the static description of one node, per the node
capability contract (the node classes are in `coreDataContainers.py` /
`coreOperation.py`, not among the available sources).  `isVariable` and
`isCost` are the `isinstance` discriminants; `inputs` is the ordered,
construction-time-fixed input list; `forward` is the node's own math
(external collaborator, `none` = raised exception); `seedGradient` is the
gradient seed a node with no consumers reports; `chain` combines this
consumer's gradient with its local partial derivative with respect to the
named input (external collaborator); `predict` is the `CostOperation`
prediction capability. -/
structure NodeDef where
  isVariable : Bool
  isCost : Bool
  inputs : List Nat
  forward : List Arr → Option Arr
  seedGradient : Arr
  chain : Nat → Arr → Option Arr
  predict : (Nat → Option Arr) → (Nat → Option Arr) → PredictResult


/-- The universe of constructed nodes, keyed by object identity. -/
def NodeEnv : Type := Nat → NodeDef


/-- The structural part of a graph: exactly the attributes `basicGraph`
mutates during `addOperation`.  `refNums` records
`operation.assignReferenceNumber`, i.e. each node's assigned identifier. -/
structure GraphStruct where
  operations : List Nat
  nOperations : Nat
  gradientOps : List Nat
  endOperations : List Nat
  finalOperation : Option Nat
  feederOperation : Option Nat
  refNums : Nat → Option Nat


/-- The evaluation-time mutable state of all nodes: a `Variable`'s
externally-assignable data (its `result`), the per-pass memoization caches,
and the train/evaluation `testing` flag.  Modelled from the spec's node
capability contract: `reset()` clears the caches but not a `Variable`'s
assigned data, and a `Variable`'s value and `shape` are its data and that
data's shape. -/
structure RunState where
  varData : Nat → Option Arr
  resultCache : Nat → Option Arr
  gradCache : Nat → Option Arr
  testing : Nat → Bool


/-- Full graph state. -/
structure GraphState where
  struct : GraphStruct
  run : RunState


/-- Pointwise update of a node-indexed store. -/
def updFn {α : Type} (f : Nat → α) (k : Nat) (v : α) : Nat → α :=
  fun n => if n = k then v else f n


/-- The exceptions the graph code can raise.  `invalidGradientTarget` and
`invalidFeeder` are the two `ValueError`s of `addOperation`;
`internalInvariantViolation` is the defensive `ValueError` re-checking that
every gradient target is a `Variable` inside the codec;
`missingValue` models touching a `Variable` that holds no data; and
`reshapeError` is a failing `np.reshape`. -/
inductive GraphError where
  | invalidGradientTarget
  | invalidFeeder
  | internalInvariantViolation
  | missingValue
  | reshapeError
  deriving DecidableEq, Repr


/-- `basicGraph.__init__`: empty graph. -/
def initialStruct : GraphStruct :=
  { operations := []
    nOperations := 0
    gradientOps := []
    endOperations := []
    finalOperation := none
    feederOperation := none
    refNums := fun _ => none }


/-- A run state where no node holds data, caches, or an evaluation flag. -/
def initialRun : RunState :=
  { varData := fun _ => none
    resultCache := fun _ => none
    gradCache := fun _ => none
    testing := fun _ => false }


def initialGraph : GraphState := ⟨initialStruct, initialRun⟩


/-- The sink-update loop of `basicGraph.addOperation`: append the new node,
then drop every listed sink `op` with `operation in op.outputs`.  Since
`op.outputs` holds exactly the constructed nodes listing `op` among their
`inputs` (back-references, modelled from the spec), the condition is
`op ∈ (env opId).inputs`. -/
def updateEndOps (env : NodeEnv) (endOps : List Nat) (opId : Nat) : List Nat :=
  (endOps ++ [opId]).filter (fun m => !(decide (m ∈ (env opId).inputs)))


/-- `basicGraph.addOperation(operation, doGradient, finalOperation,
feederOperation)`.  Faithful to the statement order of the Python body:
the node is appended, its reference number assigned, the counter bumped and
the sink list updated *before* the `doGradient` validity check, so a raised
`ValueError` leaves those mutations in place; the `finalOperation`
assignment precedes the `feederOperation` check.  (The non-fatal
`UserWarning` for a non-cost final operation has no graph-state effect and
is not modelled.) -/
def addOperation (env : NodeEnv) (s : GraphState) (opId : Nat)
    (doGradient finalOperation feederOperation : Bool) :
    GraphState × Option GraphError :=
  let st := s.struct
  let st1 : GraphStruct :=
    { st with
      operations := st.operations ++ [opId]
      refNums := updFn st.refNums opId (some st.nOperations)
      nOperations := st.nOperations + 1
      endOperations := updateEndOps env st.endOperations opId }
  if doGradient && !(env opId).isVariable then
    ({ s with struct := st1 }, some .invalidGradientTarget)
  else
    let st2 := if doGradient then
        { st1 with gradientOps := st1.gradientOps ++ [opId] } else st1
    let st3 := if finalOperation then
        { st2 with finalOperation := some opId } else st2
    if feederOperation && !(env opId).isVariable then
      ({ s with struct := st3 }, some .invalidFeeder)
    else
      let st4 := if feederOperation then
          { st3 with feederOperation := some opId } else st3
      ({ s with struct := st4 }, none)


/-! ### Evaluation engine

Modelled from the spec's node capability contract: value and gradient
retrieval are memoized per pass (the cache is consulted before anything
else), a `Variable`'s value is its assigned data, any other node first
obtains each of its inputs' values in order and then applies its own math.
The recursion is bounded by explicit fuel (Python recursion has no such
bound; every theorem about a terminating evaluation quantifies over or
instantiates sufficient fuel). -/

/-- Fold one input into the accumulated (state, collected input values). -/
def evalStep (evalN : Nat → RunState → RunState × Option Arr)
    (acc : RunState × Option (List Arr)) (m : Nat) :
    RunState × Option (List Arr) :=
  match acc with
  | (r, none) => (r, none)
  | (r, some vs) =>
    match evalN m r with
    | (r', some v) => (r', some (vs ++ [v]))
    | (r', none) => (r', none)


/-- Memoized forward value retrieval for one node (`getValue` of the node
capability contract). -/
def evalNode (env : NodeEnv) (fuel : Nat) (nid : Nat) (r : RunState) :
    RunState × Option Arr :=
  match r.resultCache nid with
  | some v => (r, some v)
  | none =>
    match fuel with
    | 0 => (r, none)
    | fuel + 1 =>
      if (env nid).isVariable then
        match r.varData nid with
        | some a => ({ r with resultCache := updFn r.resultCache nid (some a) }, some a)
        | none => (r, none)
      else
        match (env nid).inputs.foldl (evalStep (evalNode env fuel)) (r, some []) with
        | (r', none) => (r', none)
        | (r', some args) =>
          match (env nid).forward args with
          | some v => ({ r' with resultCache := updFn r'.resultCache nid (some v) }, some v)
          | none => (r', none)


/-- Fold one consumer's chain-rule contribution into the accumulated sum.
The accumulator's second component is `none` on failure, `some none` before
the first contribution, `some (some tot)` afterwards. -/
def gradStep (env : NodeEnv) (gradN : Nat → RunState → RunState × Option Arr)
    (nid : Nat) (acc : RunState × Option (Option Arr)) (c : Nat) :
    RunState × Option (Option Arr) :=
  match acc with
  | (r, none) => (r, none)
  | (r, some tot) =>
    match gradN c r with
    | (r', none) => (r', none)
    | (r', some gc) =>
      match (env c).chain nid gc with
      | none => (r', none)
      | some contrib =>
        match tot with
        | none => (r', some (some contrib))
        | some t =>
          match addArr t contrib with
          | none => (r', none)
          | some t' => (r', some (some t'))


/-- Memoized backward gradient retrieval for one node (`getGradient` of the
node capability contract): cached result if present; the node's own seed
when it has no consumers among the registered nodes; otherwise the sum over
all consumers of that consumer's gradient combined with its local partial
derivative (chain rule), as supplied by the consumer. -/
def nodeGradient (env : NodeEnv) (st : GraphStruct) :
    Nat → Nat → RunState → RunState × Option Arr
  | fuel, nid, r =>
    match r.gradCache nid with
    | some g => (r, some g)
    | none =>
      match fuel with
      | 0 => (r, none)
      | fuel + 1 =>
        let consumers := st.operations.filter (fun c => decide (nid ∈ (env c).inputs))
        if consumers.isEmpty then
          let g := (env nid).seedGradient
          ({ r with gradCache := updFn r.gradCache nid (some g) }, some g)
        else
          match consumers.foldl (gradStep env (nodeGradient env st fuel) nid) (r, some none) with
          | (r', some (some g)) =>
            ({ r' with gradCache := updFn r'.gradCache nid (some g) }, some g)
          | (r', _) => (r', none)


/-! ### Graph-level operations (`Graph`) -/

/-- One node's `reset()`: clears its own cached value and gradient. -/
def resetNode (r : RunState) (n : Nat) : RunState :=
  { r with
    resultCache := updFn r.resultCache n none
    gradCache := updFn r.gradCache n none }


/-- `Graph.resetAll`: `for op in self.operations: op.reset()`. -/
def resetAll (s : GraphState) : GraphState :=
  { s with run := s.struct.operations.foldl resetNode s.run }


/-- `Graph.feedForward`: the final operation's value using whatever caches
currently exist; with no final operation set, `None.getValue()` raises
(`none`). -/
def feedForward (env : NodeEnv) (fuel : Nat) (s : GraphState) :
    GraphState × Option Arr :=
  match s.struct.finalOperation with
  | none => (s, none)
  | some f =>
    let (r, v) := evalNode env fuel f s.run
    ({ s with run := r }, v)


/-- `Graph.getValue`: `resetAll` then `feedForward`. -/
def getValue (env : NodeEnv) (fuel : Nat) (s : GraphState) :
    GraphState × Option Arr :=
  feedForward env fuel (resetAll s)


/-- `Graph.feedBackward`: gradients of the gradient targets, in list order,
as (reference number, gradient) pairs (the diagnostic name is not
modelled). -/
def feedBackward (env : NodeEnv) (fuel : Nat) (s : GraphState) :
    GraphState × Option (List (Option Nat × Arr)) :=
  let rec go : List Nat → RunState → RunState × Option (List (Option Nat × Arr))
    | [], r => (r, some [])
    | v :: vs, r =>
      match nodeGradient env s.struct fuel v r with
      | (r', none) => (r', none)
      | (r', some g) =>
        match go vs r' with
        | (r'', some rest) => (r'', some ((s.struct.refNums v, g) :: rest))
        | (r'', none) => (r'', none)
  let (r, out) := go s.struct.gradientOps s.run
  ({ s with run := r }, out)


/-- `Graph.getGradients`: `resetAll` then `feedBackward`. -/
def getGradients (env : NodeEnv) (fuel : Nat) (s : GraphState) :
    GraphState × Option (List (Option Nat × Arr)) :=
  feedBackward env fuel (resetAll s)


/-- Set every registered node's `testing` flag (`for op in self.operations:
op.testing = b`). -/
def setTestingAll (s : GraphState) (b : Bool) : GraphState :=
  { s with
    run := s.struct.operations.foldl
      (fun r n => { r with testing := updFn r.testing n b }) s.run }


/-- `Graph.makePredictions`: requires the final operation to be a cost
operation (otherwise `AttributeError`, modelled as a `none` result with the
state unchanged); sets every node to testing, resets all caches, asks the
final node for its prediction, and sets every node back to training — the
restoration statement runs only when the prediction call returns, exactly
as in the Python body. -/
def makePredictions (env : NodeEnv) (s : GraphState) :
    GraphState × Option Arr :=
  match s.struct.finalOperation with
  | none => (s, none)
  | some f =>
    if !(env f).isCost then (s, none)
    else
      let s1 := setTestingAll s true
      let s2 := resetAll s1
      let p := (env f).predict s2.run.resultCache s2.run.gradCache
      let s3 : GraphState :=
        { s2 with run := { s2.run with
            resultCache := p.resultCache, gradCache := p.gradCache } }
      match p.value with
      | none => (s3, none)
      | some v => (setTestingAll s3 false, some v)


/-! ### Parameter codec -/

/-- The loop body of `Graph.unrollGradientParameters`: for each gradient
target in order, re-check it is a `Variable` (else the defensive
`ValueError`, `internalInvariantViolation`), then `np.hstack` the
`np.ravel` of its value.  A `Variable`'s value is its assigned data;
flattening row-major flat data is the data itself. -/
def unrollValsLoop (env : NodeEnv) (r : RunState) :
    List Nat → Except GraphError (List Rat)
  | [] => .ok []
  | v :: vs =>
    if !(env v).isVariable then .error .internalInvariantViolation
    else
      match r.varData v with
      | none => .error .missingValue
      | some a =>
        match unrollValsLoop env r vs with
        | .ok rest => .ok (a.data ++ rest)
        | .error e => .error e


/-- `Graph.unrollGradientParameters`. -/
def unrollGradientParameters (env : NodeEnv) (s : GraphState) :
    Except GraphError (List Rat) :=
  unrollValsLoop env s.run s.struct.gradientOps


/-- The loop of `Graph.attachParameters`: walk the gradient targets keeping
a pointer; per target, the defensive `Variable` re-check, then
`nElems = np.size(op.result)`, the numpy slice
`params[pointer : pointer + nElems]` (silently shorter when the vector runs
out), `np.reshape` to `op.shape` (raising when the slice length does not
match), `op.assignData`, and `pointer += nElems`.  A raise mid-loop keeps
the assignments already made, matching Python. -/
def attachLoop (env : NodeEnv) (params : List Rat) :
    List Nat → RunState → Nat → RunState × Option GraphError
  | [], r, _ => (r, none)
  | v :: vs, r, pointer =>
    if !(env v).isVariable then (r, some .internalInvariantViolation)
    else
      match r.varData v with
      | none => (r, some .missingValue)
      | some a =>
        let nElems := a.size
        let slice := ((params.drop pointer).take nElems)
        match reshape slice a.shape with
        | none => (r, some .reshapeError)
        | some newA =>
          attachLoop env params vs
            { r with varData := updFn r.varData v (some newA) } (pointer + nElems)


/-- `Graph.attachParameters(params)`. -/
def attachParameters (env : NodeEnv) (s : GraphState) (params : List Rat) :
    GraphState × Option GraphError :=
  let (r, e) := attachLoop env params s.struct.gradientOps s.run 0
  ({ s with run := r }, e)


/-- The loop of `Graph.unrollGradients`, kept per-target: the defensive
`Variable` re-check, then each target's memoized gradient as a separate
array, in gradient-target order.  `unrollGradients` flattens this. -/
def collectGradients (env : NodeEnv) (st : GraphStruct) (fuel : Nat) :
    List Nat → RunState → RunState × Except GraphError (List Arr)
  | [], r => (r, .ok [])
  | v :: vs, r =>
    if !(env v).isVariable then (r, .error .internalInvariantViolation)
    else
      match nodeGradient env st fuel v r with
      | (r', none) => (r', .error .missingValue)
      | (r', some g) =>
        match collectGradients env st fuel vs r' with
        | (r'', .ok rest) => (r'', .ok (g :: rest))
        | (r'', .error e) => (r'', .error e)


/-- `Graph.unrollGradients`: `np.hstack` of the `np.ravel` of each
gradient target's gradient, in gradient-target order. -/
def unrollGradients (env : NodeEnv) (fuel : Nat) (s : GraphState) :
    GraphState × Except GraphError (List Rat) :=
  match collectGradients env s.struct fuel s.struct.gradientOps s.run with
  | (r, .ok gs) => ({ s with run := r }, .ok (gs.map Arr.data).flatten)
  | (r, .error e) => ({ s with run := r }, .error e)


/-! ### Sequences of graph operations -/

/-- One `addOperation` call's arguments. -/
structure AddCmd where
  opId : Nat
  doGradient : Bool
  finalOperation : Bool
  feederOperation : Bool
  deriving DecidableEq, Repr


/-- Run a sequence of `addOperation` calls, keeping the state each call
leaves behind (in Python a raised `ValueError` still leaves its
already-performed mutations in place). -/
def applyAdds (env : NodeEnv) (s : GraphState) : List AddCmd → GraphState
  | [] => s
  | c :: cs =>
    applyAdds env
      (addOperation env s c.opId c.doGradient c.finalOperation c.feederOperation).1 cs


/-- The graph states reachable from the empty graph through the public
surface.  `addOp` steps require well-formed construction — the inserted
node's inputs already registered (invariant I2) and the node itself fresh
(each node is created once and inserted once) — but are taken whether or
not the call raises.  All remaining public operations (`attachParameters`,
`getValue`/`feedForward`, `getGradients`/`feedBackward`,
`unrollGradients`, `makePredictions`, `resetAll`) mutate only per-node
run-time state, never the structural attributes; `evalPhase`
over-approximates every such operation by allowing the run component to be
replaced arbitrarily. -/
inductive Reachable (env : NodeEnv) : GraphState → Prop where
  | init : Reachable env initialGraph
  | addOp {s : GraphState} {opId : Nat} {dg fin feed : Bool} :
      Reachable env s →
      (∀ m ∈ (env opId).inputs, m ∈ s.struct.operations) →
      opId ∉ s.struct.operations →
      Reachable env (addOperation env s opId dg fin feed).1
  | evalPhase {s : GraphState} (r : RunState) :
      Reachable env s → Reachable env { s with run := r }


/-! ### Concrete node environments for witnesses and counterexamples -/

/-- A three-node universe: `0` a `Variable`, `1` a generic operation
consuming `0`, `2` a `CostOperation` consuming `1` whose prediction
capability succeeds. -/
def envA : NodeEnv := fun n =>
  { isVariable := n == 0
    isCost := n == 2
    inputs := if n = 1 then [0] else if n = 2 then [1] else []
    forward := fun args => args.head?
    seedGradient := ⟨[1], [2]⟩
    chain := fun _ g => some g
    predict := fun rc gc => ⟨rc, gc, some ⟨[1], [7]⟩⟩ }


/-- A universe of input-free non-`Variable` nodes; node `0` is a
`CostOperation` whose prediction capability raises. -/
def envB : NodeEnv := fun n =>
  { isVariable := false
    isCost := n == 0
    inputs := []
    forward := fun args => args.head?
    seedGradient := ⟨[], []⟩
    chain := fun _ g => some g
    predict := fun rc gc => ⟨rc, gc, none⟩ }


/-- A singleton universe: node `0` is a `Variable` with no inputs. -/
def envC : NodeEnv := fun _ =>
  { isVariable := true
    isCost := false
    inputs := []
    forward := fun args => args.head?
    seedGradient := ⟨[1], [2]⟩
    chain := fun _ g => some g
    predict := fun rc gc => ⟨rc, gc, none⟩ }


/-! ### Structural invariants under reachability -/

/-- `m` is a sink of the registered node list `ops`: no registered node
lists `m` among its inputs. -/
def isSinkOf (env : NodeEnv) (ops : List Nat) (m : Nat) : Bool :=
  ops.all (fun n => !(decide (m ∈ (env n).inputs)))


/-- The structural invariants `basicGraph.addOperation` maintains:
inputs closed under registration (I2), the sink list equal to the
registered nodes no registered node consumes (I5), the counter equal to
the number of registered nodes, identifiers a dense 0-based sequence in
insertion order (I1), and every gradient target a `Variable` (I3). -/
structure StructInv (env : NodeEnv) (st : GraphStruct) : Prop where
  closed : ∀ n ∈ st.operations, ∀ m ∈ (env n).inputs, m ∈ st.operations
  sinks : st.endOperations = st.operations.filter (isSinkOf env st.operations)
  count : st.nOperations = st.operations.length
  refs : ∀ k (hk : k < st.operations.length),
    st.refNums (st.operations.get ⟨k, hk⟩) = some k
  gradVars : ∀ v ∈ st.gradientOps, (env v).isVariable = true


/-- A concrete three-insertion graph over `envA`: variable `0` (a gradient
target), operation `1` over it, cost operation `2` over that, marked
final. -/
def sW : GraphState :=
  (addOperation envA (addOperation envA (addOperation envA initialGraph
    0 true false false).1 1 false false false).1 2 false true false).1


/-- A graph over `envB` whose sole node `0` is a cost operation marked
final; its prediction capability raises. -/
def sB : GraphState := (addOperation envB initialGraph 0 false true false).1


/-- A concrete graph whose final node `0` already holds a cached value. -/
def sF : GraphState :=
  { struct := { initialStruct with operations := [0], finalOperation := some 0 }
    run := { initialRun with
      resultCache := updFn initialRun.resultCache 0 (some ⟨[1], [4]⟩) } }


/-- Total element count of the listed targets' current values. -/
def listTargetSize (l : List Nat) (r : RunState) : Nat :=
  (l.map (fun v => ((r.varData v).map Arr.size).getD 0)).sum


/-- The sum of the element counts of all gradient targets' current
values. -/
def totalParamLength (s : GraphState) : Nat :=
  listTargetSize s.struct.gradientOps s.run


/-- A graph over `envC`: the single `Variable` `0` is a gradient target
holding the one-element value `[5]`. -/
def sC : GraphState :=
  { struct := (addOperation envC initialGraph 0 true false false).1.struct
    run := { initialRun with
      varData := updFn initialRun.varData 0 (some ⟨[1], [5]⟩) } }


/-- The per-target decomposition of `unrollGradientParameters`: the listed
targets' values as separate arrays, with the same defensive checks in the
same order. -/
def collectValues (env : NodeEnv) (r : RunState) :
    List Nat → Except GraphError (List Arr)
  | [] => .ok []
  | v :: vs =>
    if !(env v).isVariable then .error .internalInvariantViolation
    else
      match r.varData v with
      | none => .error .missingValue
      | some a =>
        match collectValues env r vs with
        | .ok rest => .ok (a :: rest)
        | .error e => .error e


/-! ### Shape of `addOperation` -/

/-- The parts of the graph `addOperation` mutates before any validity
check: node list, reference number, counter, sink list. -/
lemma addOperation_operations (env : NodeEnv) (s : GraphState) (opId : Nat)
    (dg fin feed : Bool) :
    (addOperation env s opId dg fin feed).1.struct.operations =
      s.struct.operations ++ [opId] := by
  cases dg <;> cases fin <;> cases feed <;> cases hv : (env opId).isVariable <;>
    simp [addOperation, hv]


lemma addOperation_refNums (env : NodeEnv) (s : GraphState) (opId : Nat)
    (dg fin feed : Bool) :
    (addOperation env s opId dg fin feed).1.struct.refNums =
      updFn s.struct.refNums opId (some s.struct.nOperations) := by
  cases dg <;> cases fin <;> cases feed <;> cases hv : (env opId).isVariable <;>
    simp [addOperation, hv]


lemma addOperation_nOperations (env : NodeEnv) (s : GraphState) (opId : Nat)
    (dg fin feed : Bool) :
    (addOperation env s opId dg fin feed).1.struct.nOperations =
      s.struct.nOperations + 1 := by
  cases dg <;> cases fin <;> cases feed <;> cases hv : (env opId).isVariable <;>
    simp [addOperation, hv]


lemma addOperation_endOperations (env : NodeEnv) (s : GraphState) (opId : Nat)
    (dg fin feed : Bool) :
    (addOperation env s opId dg fin feed).1.struct.endOperations =
      updateEndOps env s.struct.endOperations opId := by
  cases dg <;> cases fin <;> cases feed <;> cases hv : (env opId).isVariable <;>
    simp [addOperation, hv]


/-- The gradient-target list gains the node exactly when `doGradient` was
requested and the node passed the `Variable` check. -/
lemma addOperation_gradientOps (env : NodeEnv) (s : GraphState) (opId : Nat)
    (dg fin feed : Bool) :
    (addOperation env s opId dg fin feed).1.struct.gradientOps =
      s.struct.gradientOps ++
        (if dg && (env opId).isVariable then [opId] else []) := by
  cases dg <;> cases fin <;> cases feed <;> cases hv : (env opId).isVariable <;>
    simp [addOperation, hv]


/-- `addOperation` never touches run-time node state. -/
lemma addOperation_run (env : NodeEnv) (s : GraphState) (opId : Nat)
    (dg fin feed : Bool) :
    (addOperation env s opId dg fin feed).1.run = s.run := by
  cases dg <;> cases fin <;> cases feed <;> cases hv : (env opId).isVariable <;>
    simp [addOperation, hv]


lemma addOperation_finalOperation_of_not_final (env : NodeEnv) (s : GraphState)
    (opId : Nat) (dg feed : Bool) :
    (addOperation env s opId dg false feed).1.struct.finalOperation =
      s.struct.finalOperation := by
  cases dg <;> cases feed <;> cases hv : (env opId).isVariable <;>
    simp [addOperation, hv]


/-- **C1.** `addOperation` with `doGradient = true` on a non-`Variable`
raises `InvalidGradientTarget` and leaves the gradient-target list, the
final and feeder references and all run-time state untouched — but the
node sequence, the identifier counter and the sink list have already been
mutated when the exception is raised, so the graph is *not* left entirely
unchanged (amended from the claim, which asserted no mutation at all). -/
theorem C1_invalid_gradient_target_partial_mutation (env : NodeEnv)
    (s : GraphState) (opId : Nat) (fin feed : Bool)
    (h : (env opId).isVariable = false) :
    (addOperation env s opId true fin feed).2 = some .invalidGradientTarget ∧
    (addOperation env s opId true fin feed).1.struct.gradientOps =
      s.struct.gradientOps ∧
    (addOperation env s opId true fin feed).1.struct.finalOperation =
      s.struct.finalOperation ∧
    (addOperation env s opId true fin feed).1.struct.feederOperation =
      s.struct.feederOperation ∧
    (addOperation env s opId true fin feed).1.run = s.run ∧
    (addOperation env s opId true fin feed).1.struct.operations =
      s.struct.operations ++ [opId] ∧
    (addOperation env s opId true fin feed).1.struct.nOperations =
      s.struct.nOperations + 1 ∧
    (addOperation env s opId true fin feed).1.struct.endOperations =
      updateEndOps env s.struct.endOperations opId := by
  cases fin <;> cases feed <;> simp [addOperation, h]


/-- Witness for C1: node `0` of `envB` is not a `Variable`; on the empty
graph the call raises yet appends the node. -/
theorem C1_invalid_gradient_target_partial_mutation_witness :
    (envB 0).isVariable = false ∧
    (addOperation envB initialGraph 0 true false false).2 =
      some .invalidGradientTarget ∧
    (addOperation envB initialGraph 0 true false false).1.struct.gradientOps =
      initialGraph.struct.gradientOps :=
  ⟨by decide,
   (C1_invalid_gradient_target_partial_mutation envB initialGraph 0 false false
      (by decide)).1,
   (C1_invalid_gradient_target_partial_mutation envB initialGraph 0 false false
      (by decide)).2.1⟩


/-- Counterexample to C1 as stated: the failing call does *not* leave the
node sequence, counter and sink set unchanged — on the empty graph it
registers the offending node. -/
theorem C1_counterexample :
    (addOperation envB initialGraph 0 true false false).2 =
      some .invalidGradientTarget ∧
    (addOperation envB initialGraph 0 true false false).1.struct.operations ≠
      initialGraph.struct.operations ∧
    (addOperation envB initialGraph 0 true false false).1.struct.nOperations ≠
      initialGraph.struct.nOperations ∧
    (addOperation envB initialGraph 0 true false false).1.struct.endOperations ≠
      initialGraph.struct.endOperations := by
  refine ⟨rfl, ?_, ?_, ?_⟩ <;> decide


/-- One insertion keeps the sink list equal to the filtered node list,
provided the graph's inputs are closed (I2) and the inserted node is
fresh. -/
lemma updateEndOps_spec (env : NodeEnv) (ops : List Nat) (a : Nat)
    (hclosed : ∀ n ∈ ops, ∀ m ∈ (env n).inputs, m ∈ ops)
    (hfresh : a ∉ ops)
    (hin : ∀ m ∈ (env a).inputs, m ∈ ops) :
    updateEndOps env (ops.filter (isSinkOf env ops)) a =
      (ops ++ [a]).filter (isSinkOf env (ops ++ [a])) := by
  have haa : a ∉ (env a).inputs := fun h => hfresh (hin a h)
  have hsink : ∀ m, isSinkOf env (ops ++ [a]) m =
      (isSinkOf env ops m && !(decide (m ∈ (env a).inputs))) := by
    intro m
    simp [isSinkOf, List.all_append]
  unfold updateEndOps
  rw [List.filter_append, List.filter_append, List.filter_filter]
  congr 1
  · refine List.filter_congr ?_
    intro m hm
    rw [hsink m, Bool.and_comm]
  · have h1 : isSinkOf env (ops ++ [a]) a = true := by
      rw [hsink a]
      simp [isSinkOf, haa]
      intro n hn
      exact fun hmem => hfresh (hclosed n hn a hmem)
    simp [haa, h1]


lemma structInv_init (env : NodeEnv) : StructInv env initialStruct := by
  constructor <;> simp [initialStruct, isSinkOf]


lemma structInv_addOp (env : NodeEnv) (s : GraphState) (opId : Nat)
    (dg fin feed : Bool)
    (hInv : StructInv env s.struct)
    (hin : ∀ m ∈ (env opId).inputs, m ∈ s.struct.operations)
    (hfresh : opId ∉ s.struct.operations) :
    StructInv env (addOperation env s opId dg fin feed).1.struct := by
  obtain ⟨hc, hs, hn, hr, hg⟩ := hInv
  constructor
  · rw [addOperation_operations]
    intro n hn' m hm
    rcases List.mem_append.mp hn' with h | h
    · exact List.mem_append.mpr (Or.inl (hc n h m hm))
    · simp only [List.mem_singleton] at h
      subst h
      exact List.mem_append.mpr (Or.inl (hin m hm))
  · rw [addOperation_endOperations, addOperation_operations, hs]
    exact updateEndOps_spec env _ opId hc hfresh hin
  · rw [addOperation_nOperations, addOperation_operations]
    simp [hn]
  · rw [addOperation_refNums, addOperation_operations]
    intro k hk
    simp only [List.length_append, List.length_singleton] at hk
    rcases Nat.lt_or_ge k s.struct.operations.length with hlt | hge
    · have hget : (s.struct.operations ++ [opId]).get
          ⟨k, by simp; omega⟩ = s.struct.operations.get ⟨k, hlt⟩ := by
        simp [List.get_eq_getElem, List.getElem_append_left hlt]
      rw [hget]
      have hne : s.struct.operations.get ⟨k, hlt⟩ ≠ opId := by
        intro he
        exact hfresh (he ▸ List.get_mem _ _ hlt)
      rw [updFn, if_neg hne]
      exact hr k hlt
    · have hk' : k = s.struct.operations.length := by omega
      subst hk'
      have hget : (s.struct.operations ++ [opId]).get
          ⟨s.struct.operations.length, by simp⟩ = opId := by
        simp [List.get_eq_getElem]
      rw [hget, updFn, if_pos rfl, hn]
  · rw [addOperation_gradientOps]
    intro v hv
    rcases List.mem_append.mp hv with h | h
    · exact hg v h
    · by_cases hcond : (dg && (env opId).isVariable) = true
      · rw [if_pos hcond] at h
        simp only [List.mem_singleton] at h
        subst h
        exact (Bool.and_eq_true ..).mp hcond |>.2
      · rw [if_neg hcond] at h
        exact absurd h (List.not_mem_nil v)


/-- Every reachable graph state satisfies the structural invariants. -/
lemma reachable_structInv {env : NodeEnv} {s : GraphState}
    (h : Reachable env s) : StructInv env s.struct := by
  induction h with
  | init => exact structInv_init env
  | addOp _ hin hfresh ih => exact structInv_addOp _ _ _ _ _ _ ih hin hfresh
  | evalPhase r _ ih => exact ih


/-- **C5.** After any well-formed construction sequence (and any
interleaved evaluation-phase operations), the sink list contains exactly
the registered nodes that no registered node lists among its inputs. -/
theorem C5_sink_set_exact (env : NodeEnv) (s : GraphState)
    (h : Reachable env s) :
    ∀ m, m ∈ s.struct.endOperations ↔
      (m ∈ s.struct.operations ∧
        ∀ n ∈ s.struct.operations, m ∉ (env n).inputs) := by
  intro m
  rw [(reachable_structInv h).sinks, List.mem_filter]
  simp [isSinkOf]


/-- **C6.** In every reachable graph state the identifier counter equals
the number of registered nodes and the node inserted at position `k`
carries identifier exactly `k`; since this holds at every reachable state,
no graph operation ever changes an identifier after insertion. -/
theorem C6_identifiers_dense (env : NodeEnv) (s : GraphState)
    (h : Reachable env s) :
    s.struct.nOperations = s.struct.operations.length ∧
    ∀ k (hk : k < s.struct.operations.length),
      s.struct.refNums (s.struct.operations.get ⟨k, hk⟩) = some k :=
  ⟨(reachable_structInv h).count, (reachable_structInv h).refs⟩


lemma reachable_sW : Reachable envA sW :=
  Reachable.addOp (Reachable.addOp (Reachable.addOp Reachable.init
    (by decide) (by decide)) (by decide) (by decide)) (by decide) (by decide)


/-- Witness for C5 at the concrete graph `sW` and node `2`. -/
theorem C5_sink_set_exact_witness :
    2 ∈ sW.struct.endOperations ↔
      (2 ∈ sW.struct.operations ∧
        ∀ n ∈ sW.struct.operations, 2 ∉ (envA n).inputs) :=
  C5_sink_set_exact envA sW reachable_sW 2


/-- Witness for C6 at the concrete graph `sW`: the second inserted node
carries identifier `1`. -/
theorem C6_identifiers_dense_witness :
    sW.struct.nOperations = sW.struct.operations.length ∧
    sW.struct.refNums (sW.struct.operations.get ⟨1, by decide⟩) = some 1 :=
  ⟨(C6_identifiers_dense envA sW reachable_sW).1,
   (C6_identifiers_dense envA sW reachable_sW).2 1 (by decide)⟩


/-! ### The defensive codec checks never fire on reachable graphs -/

lemma unrollValsLoop_ne_iiv (env : NodeEnv) (r : RunState) (l : List Nat)
    (hall : ∀ v ∈ l, (env v).isVariable = true) :
    unrollValsLoop env r l ≠ .error .internalInvariantViolation := by
  induction l with
  | nil => simp [unrollValsLoop]
  | cons v vs ih =>
    have hv := hall v (List.mem_cons_self v vs)
    have ihvs := ih (fun w hw => hall w (List.mem_cons_of_mem v hw))
    simp only [unrollValsLoop, hv, Bool.not_true, Bool.false_eq_true,
      if_false]
    cases hvd : r.varData v with
    | none => simp
    | some a =>
      cases hres : unrollValsLoop env r vs with
      | ok rest => simp
      | error e =>
        rw [hres] at ihvs
        intro hcontr
        apply ihvs
        cases hcontr
        rfl


lemma attachLoop_ne_iiv (env : NodeEnv) (params : List Rat) (l : List Nat) :
    ∀ (r : RunState) (ptr : Nat), (∀ v ∈ l, (env v).isVariable = true) →
      (attachLoop env params l r ptr).2 ≠ some .internalInvariantViolation := by
  induction l with
  | nil => intro r ptr _; simp [attachLoop]
  | cons v vs ih =>
    intro r ptr hall
    have hv := hall v (List.mem_cons_self v vs)
    simp only [attachLoop, hv, Bool.not_true, Bool.false_eq_true, if_false]
    cases hvd : r.varData v with
    | none => simp
    | some a =>
      dsimp only
      cases hrs : reshape ((params.drop ptr).take a.size) a.shape with
      | none => simp
      | some newA =>
        exact ih _ _ (fun w hw => hall w (List.mem_cons_of_mem v hw))


lemma collectGradients_ne_iiv (env : NodeEnv) (st : GraphStruct) (fuel : Nat)
    (l : List Nat) :
    ∀ (r : RunState), (∀ v ∈ l, (env v).isVariable = true) →
      (collectGradients env st fuel l r).2 ≠ .error .internalInvariantViolation := by
  induction l with
  | nil => intro r _; simp [collectGradients]
  | cons v vs ih =>
    intro r hall
    have hv := hall v (List.mem_cons_self v vs)
    simp only [collectGradients, hv, Bool.not_true, Bool.false_eq_true,
      if_false]
    cases hng : nodeGradient env st fuel v r with
    | mk r' go =>
      cases go with
      | none => simp
      | some g =>
        dsimp only
        have ihvs := ih r' (fun w hw => hall w (List.mem_cons_of_mem v hw))
        cases hres : collectGradients env st fuel vs r' with
        | mk r'' eres =>
          rw [hres] at ihvs
          cases eres with
          | ok rest => simp
          | error e =>
            dsimp only
            intro hcontr
            apply ihvs
            cases hcontr
            rfl


/-- **C9.** On every reachable graph state each gradient target is a
`Variable` (invariant I3, established by `addOperation`'s validation), so
the defensive `InternalInvariantViolation` branches inside
`unrollGradientParameters`, `attachParameters` and `unrollGradients` can
never fire, whatever parameter vector or fuel is supplied. -/
theorem C9_defensive_checks_unreachable (env : NodeEnv) (s : GraphState)
    (h : Reachable env s) :
    (∀ v ∈ s.struct.gradientOps, (env v).isVariable = true) ∧
    unrollGradientParameters env s ≠ .error .internalInvariantViolation ∧
    (∀ params, (attachParameters env s params).2 ≠
      some .internalInvariantViolation) ∧
    (∀ fuel, (unrollGradients env fuel s).2 ≠
      .error .internalInvariantViolation) := by
  have hg := (reachable_structInv h).gradVars
  refine ⟨hg, ?_, ?_, ?_⟩
  · exact unrollValsLoop_ne_iiv env s.run s.struct.gradientOps hg
  · intro params
    have hl := attachLoop_ne_iiv env params s.struct.gradientOps s.run 0 hg
    unfold attachParameters
    cases hres : attachLoop env params s.struct.gradientOps s.run 0 with
    | mk r e =>
      rw [hres] at hl
      exact hl
  · intro fuel
    have hc := collectGradients_ne_iiv env s.struct fuel
      s.struct.gradientOps s.run hg
    unfold unrollGradients
    cases hres : collectGradients env s.struct fuel s.struct.gradientOps s.run with
    | mk r e =>
      rw [hres] at hc
      cases e with
      | ok gs => simp
      | error e' => simpa using hc


/-- Witness for C9 at the concrete reachable graph `sW`. -/
theorem C9_defensive_checks_unreachable_witness :
    (∀ v ∈ sW.struct.gradientOps, (envA v).isVariable = true) ∧
    (attachParameters envA sW []).2 ≠ some .internalInvariantViolation :=
  ⟨(C9_defensive_checks_unreachable envA sW reachable_sW).1,
   (C9_defensive_checks_unreachable envA sW reachable_sW).2.2.1 []⟩


/-! ### Missing final operation -/

lemma applyAdds_finalOperation_none (env : NodeEnv) (cmds : List AddCmd) :
    ∀ s : GraphState, (∀ c ∈ cmds, c.finalOperation = false) →
      s.struct.finalOperation = none →
      (applyAdds env s cmds).struct.finalOperation = none := by
  induction cmds with
  | nil => intro s _ h0; exact h0
  | cons c cs ih =>
    intro s hall h0
    simp only [applyAdds]
    refine ih _ (fun d hd => hall d (List.mem_cons_of_mem c hd)) ?_
    have hc := hall c (List.mem_cons_self c cs)
    rw [hc, addOperation_finalOperation_of_not_final]
    exact h0


/-- **C10.** Any sequence of insertions none of which is marked final
leaves the final reference absent, and then `feedForward`, `getValue` and
`makePredictions` all fail (the Python code dereferences `None` /
`isinstance(None, CostOperation)` is false) instead of returning a
value. -/
theorem C10_missing_final_fails (env : NodeEnv) (cmds : List AddCmd)
    (fuel : Nat) (h : ∀ c ∈ cmds, c.finalOperation = false) :
    (applyAdds env initialGraph cmds).struct.finalOperation = none ∧
    (feedForward env fuel (applyAdds env initialGraph cmds)).2 = none ∧
    (getValue env fuel (applyAdds env initialGraph cmds)).2 = none ∧
    (makePredictions env (applyAdds env initialGraph cmds)).2 = none := by
  have hfin := applyAdds_finalOperation_none env cmds initialGraph h rfl
  have hreset : (resetAll (applyAdds env initialGraph cmds)).struct.finalOperation
      = none := hfin
  refine ⟨hfin, ?_, ?_, ?_⟩
  · unfold feedForward
    rw [hfin]
  · unfold getValue feedForward
    rw [hreset]
  · unfold makePredictions
    rw [hfin]


/-- Witness for C10: one non-final insertion over `envB`. -/
theorem C10_missing_final_fails_witness :
    (∀ c ∈ [AddCmd.mk 0 false false false], c.finalOperation = false) ∧
    (makePredictions envB
      (applyAdds envB initialGraph [AddCmd.mk 0 false false false])).2 = none :=
  ⟨by decide,
   (C10_missing_final_fails envB [AddCmd.mk 0 false false false] 3
      (by decide)).2.2.2⟩


/-! ### Reset and mode-flag bookkeeping -/

lemma foldl_resetNode_resultCache (ops : List Nat) :
    ∀ (r : RunState) (n : Nat),
      (ops.foldl resetNode r).resultCache n =
        if n ∈ ops then none else r.resultCache n := by
  induction ops with
  | nil => intro r n; simp
  | cons b t ih =>
    intro r n
    simp only [List.foldl_cons]
    rw [ih]
    by_cases hb : n = b
    · subst hb
      by_cases ht : n ∈ t <;> simp [ht, resetNode, updFn]
    · by_cases ht : n ∈ t <;> simp [ht, hb, resetNode, updFn]


lemma foldl_resetNode_gradCache (ops : List Nat) :
    ∀ (r : RunState) (n : Nat),
      (ops.foldl resetNode r).gradCache n =
        if n ∈ ops then none else r.gradCache n := by
  induction ops with
  | nil => intro r n; simp
  | cons b t ih =>
    intro r n
    simp only [List.foldl_cons]
    rw [ih]
    by_cases hb : n = b
    · subst hb
      by_cases ht : n ∈ t <;> simp [ht, resetNode, updFn]
    · by_cases ht : n ∈ t <;> simp [ht, hb, resetNode, updFn]


lemma foldl_resetNode_varData (ops : List Nat) :
    ∀ r : RunState, (ops.foldl resetNode r).varData = r.varData := by
  induction ops with
  | nil => intro r; rfl
  | cons b t ih => intro r; simp only [List.foldl_cons]; rw [ih]; rfl


lemma foldl_resetNode_testing (ops : List Nat) :
    ∀ r : RunState, (ops.foldl resetNode r).testing = r.testing := by
  induction ops with
  | nil => intro r; rfl
  | cons b t ih => intro r; simp only [List.foldl_cons]; rw [ih]; rfl


/-- **C7.** `getValue` is exactly `resetAll` followed by `feedForward`;
the reset clears every registered node's cached value and gradient; and
`feedForward` performs no reset: with the final node's value already
cached it returns that cache and leaves the state untouched, for any
fuel. -/
theorem C7_getValue_resets_feedForward_does_not (env : NodeEnv) (fuel : Nat)
    (s : GraphState) :
    getValue env fuel s = feedForward env fuel (resetAll s) ∧
    (∀ n ∈ s.struct.operations,
      (resetAll s).run.resultCache n = none ∧
      (resetAll s).run.gradCache n = none) ∧
    (∀ f v, s.struct.finalOperation = some f → s.run.resultCache f = some v →
      feedForward env fuel s = (s, some v)) := by
  refine ⟨rfl, ?_, ?_⟩
  · intro n hn
    constructor
    · show (s.struct.operations.foldl resetNode s.run).resultCache n = none
      rw [foldl_resetNode_resultCache]
      simp [hn]
    · show (s.struct.operations.foldl resetNode s.run).gradCache n = none
      rw [foldl_resetNode_gradCache]
      simp [hn]
  · intro f v hf hc
    unfold feedForward
    rw [hf]
    have heval : evalNode env fuel f s.run = (s.run, some v) := by
      cases fuel with
      | zero => simp [evalNode, hc]
      | succ fl => simp [evalNode, hc]
    dsimp only
    rw [heval]


lemma foldl_setTesting (b : Bool) (ops : List Nat) :
    ∀ (r : RunState) (n : Nat),
      (ops.foldl (fun r n => { r with testing := updFn r.testing n b }) r).testing n
        = if n ∈ ops then b else r.testing n := by
  induction ops with
  | nil => intro r n; simp
  | cons c t ih =>
    intro r n
    simp only [List.foldl_cons]
    rw [ih]
    by_cases hcn : n = c
    · subst hcn
      by_cases ht : n ∈ t <;> simp [ht, updFn]
    · by_cases ht : n ∈ t <;> simp [ht, hcn, updFn]


/-- **C3 (amended).** With a cost final operation, `makePredictions`
restores every registered node's mode flag to training exactly when the
prediction retrieval returns; when the retrieval raises, the restoration
statement is never reached and every flag is left set to evaluation. -/
theorem C3_mode_flags_after_makePredictions (env : NodeEnv) (s : GraphState)
    (f : Nat) (hf : s.struct.finalOperation = some f)
    (hc : (env f).isCost = true) :
    ((makePredictions env s).2.isSome = true →
      ∀ n ∈ s.struct.operations,
        (makePredictions env s).1.run.testing n = false) ∧
    ((makePredictions env s).2 = none →
      ∀ n ∈ s.struct.operations,
        (makePredictions env s).1.run.testing n = true) := by
  unfold makePredictions
  rw [hf]
  dsimp only
  simp only [hc, Bool.not_true, Bool.false_eq_true, if_false]
  set s2 := resetAll (setTestingAll s true) with hs2
  set p := (env f).predict s2.run.resultCache s2.run.gradCache with hp
  have htest2 : ∀ n ∈ s.struct.operations, s2.run.testing n = true := by
    intro n hn
    rw [hs2]
    show ((setTestingAll s true).struct.operations.foldl resetNode
      (setTestingAll s true).run).testing n = true
    rw [foldl_resetNode_testing]
    show (s.struct.operations.foldl
      (fun (r : RunState) (m : Nat) =>
        { r with testing := updFn r.testing m true }) s.run).testing n = true
    rw [foldl_setTesting]
    simp [hn]
  cases hv : p.value with
  | none =>
    constructor
    · intro habs
      simp [hv] at habs
    · intro _ n hn
      exact htest2 n hn
  | some v =>
    constructor
    · intro _ n hn
      show (s.struct.operations.foldl
        (fun (r : RunState) (m : Nat) =>
          { r with testing := updFn r.testing m false }) _).testing n = false
      rw [foldl_setTesting]
      simp [hn]
    · intro habs
      simp [hv] at habs


/-- Counterexample to C3 as stated: the final node is a `CostOperation`,
the node's flag starts at training, the prediction retrieval raises — and
after the call the flag is still set to evaluation, not training. -/
theorem C3_counterexample :
    sB.struct.finalOperation = some 0 ∧
    (envB 0).isCost = true ∧
    sB.run.testing 0 = false ∧
    (makePredictions envB sB).2 = none ∧
    (makePredictions envB sB).1.run.testing 0 = true := by
  refine ⟨rfl, rfl, rfl, rfl, rfl⟩


/-- Witness for the amended C3 at the concrete graph `sW`, whose
prediction retrieval succeeds: the flag returns to training. -/
theorem C3_mode_flags_after_makePredictions_witness :
    (makePredictions envA sW).2.isSome = true ∧
    (makePredictions envA sW).1.run.testing 0 = false :=
  ⟨by decide,
   (C3_mode_flags_after_makePredictions envA sW 2 (by decide) (by decide)).1
     (by decide) 0 (by decide)⟩


theorem C7_getValue_resets_feedForward_does_not_witness :
    sF.struct.finalOperation = some 0 ∧
    sF.run.resultCache 0 = some ⟨[1], [4]⟩ ∧
    feedForward envA 0 sF = (sF, some ⟨[1], [4]⟩) :=
  ⟨rfl, by decide,
   (C7_getValue_resets_feedForward_does_not envA 0 sF).2.2 0 ⟨[1], [4]⟩
     rfl (by decide)⟩


lemma attachLoop_enough (env : NodeEnv) (params : List Rat) :
    ∀ (l : List Nat) (r : RunState) (ptr : Nat),
      (∀ v ∈ l, (env v).isVariable = true) →
      l.Nodup →
      (∀ v ∈ l, ∃ a, r.varData v = some a ∧ a.wf) →
      ptr + listTargetSize l r ≤ params.length →
      (attachLoop env params l r ptr).2 = none := by
  intro l
  induction l with
  | nil => intro r ptr _ _ _ _; simp [attachLoop]
  | cons v vs ih =>
    intro r ptr hvar hnd hval hlen
    have hv := hvar v (List.mem_cons_self v vs)
    obtain ⟨a, hvd, hwf⟩ := hval v (List.mem_cons_self v vs)
    have hsize : listTargetSize (v :: vs) r =
        a.size + listTargetSize vs r := by
      simp [listTargetSize, hvd]
    simp only [attachLoop, hv, Bool.not_true, Bool.false_eq_true, if_false,
      hvd]
    have hslice : ((params.drop ptr).take a.size).length = a.size := by
      rw [List.length_take, List.length_drop]
      omega
    have hrs : reshape ((params.drop ptr).take a.size) a.shape =
        some ⟨a.shape, (params.drop ptr).take a.size⟩ := by
      unfold reshape
      rw [if_pos]
      rw [hslice]
      exact hwf
    rw [hrs]
    dsimp only
    have hpres : ∀ w ∈ vs, updFn r.varData v
        (some ⟨a.shape, (params.drop ptr).take a.size⟩) w = r.varData w := by
      intro w hw
      unfold updFn
      rw [if_neg (fun (he : w = v) => (List.nodup_cons.mp hnd).1 (he ▸ hw))]
    have hls : listTargetSize vs { r with varData := (updFn r.varData v
        (some ⟨a.shape, (params.drop ptr).take a.size⟩)) } = listTargetSize vs r := by
      unfold listTargetSize
      congr 1
      refine List.map_congr_left ?_
      intro w hw
      rw [show ({ r with varData := (updFn r.varData v
        (some ⟨a.shape, (params.drop ptr).take a.size⟩)) } : RunState).varData w
        = r.varData w from hpres w hw]
    refine ih _ (ptr + a.size)
      (fun w hw => hvar w (List.mem_cons_of_mem v hw))
      (List.nodup_cons.mp hnd).2
      ?_ ?_
    · intro w hw
      show ∃ b, updFn r.varData v
        (some ⟨a.shape, (params.drop ptr).take a.size⟩) w = some b ∧ b.wf
      rw [hpres w hw]
      exact hval w (List.mem_cons_of_mem v hw)
    · rw [hls]
      omega


lemma attachLoop_short (env : NodeEnv) (params : List Rat) :
    ∀ (l : List Nat) (r : RunState) (ptr : Nat),
      (∀ v ∈ l, (env v).isVariable = true) →
      l.Nodup →
      (∀ v ∈ l, ∃ a, r.varData v = some a ∧ a.wf) →
      ptr ≤ params.length →
      params.length < ptr + listTargetSize l r →
      (attachLoop env params l r ptr).2 = some .reshapeError := by
  intro l
  induction l with
  | nil =>
    intro r ptr _ _ _ hptr hlen
    simp [listTargetSize] at hlen
    omega
  | cons v vs ih =>
    intro r ptr hvar hnd hval hptr hlen
    have hv := hvar v (List.mem_cons_self v vs)
    obtain ⟨a, hvd, hwf⟩ := hval v (List.mem_cons_self v vs)
    have hsize : listTargetSize (v :: vs) r =
        a.size + listTargetSize vs r := by
      simp [listTargetSize, hvd]
    simp only [attachLoop, hv, Bool.not_true, Bool.false_eq_true, if_false,
      hvd]
    by_cases hfit : ptr + a.size ≤ params.length
    · have hslice : ((params.drop ptr).take a.size).length = a.size := by
        rw [List.length_take, List.length_drop]
        omega
      have hrs : reshape ((params.drop ptr).take a.size) a.shape =
          some ⟨a.shape, (params.drop ptr).take a.size⟩ := by
        unfold reshape
        rw [if_pos]
        rw [hslice]
        exact hwf
      rw [hrs]
      dsimp only
      have hpres : ∀ w ∈ vs, updFn r.varData v
          (some ⟨a.shape, (params.drop ptr).take a.size⟩) w = r.varData w := by
        intro w hw
        unfold updFn
        rw [if_neg (fun (he : w = v) => (List.nodup_cons.mp hnd).1 (he ▸ hw))]
      have hls : listTargetSize vs { r with varData := (updFn r.varData v
          (some ⟨a.shape, (params.drop ptr).take a.size⟩)) } = listTargetSize vs r := by
        unfold listTargetSize
        congr 1
        refine List.map_congr_left ?_
        intro w hw
        rw [show ({ r with varData := (updFn r.varData v
          (some ⟨a.shape, (params.drop ptr).take a.size⟩)) } : RunState).varData w
          = r.varData w from hpres w hw]
      refine ih _ (ptr + a.size)
        (fun w hw => hvar w (List.mem_cons_of_mem v hw))
        (List.nodup_cons.mp hnd).2
        ?_ hfit ?_
      · intro w hw
        show ∃ b, updFn r.varData v
          (some ⟨a.shape, (params.drop ptr).take a.size⟩) w = some b ∧ b.wf
        rw [hpres w hw]
        exact hval w (List.mem_cons_of_mem v hw)
      · rw [hls]
        omega
    · have hne : ((params.drop ptr).take a.size).length ≠ a.shape.prod := by
        rw [List.length_take, List.length_drop]
        rw [← hwf]
        show min a.size _ ≠ a.size
        omega
      have hrs : reshape ((params.drop ptr).take a.size) a.shape = none := by
        unfold reshape
        rw [if_neg hne]
      rw [hrs]


lemma unrollValsLoop_ok (env : NodeEnv) (r : RunState) :
    ∀ l : List Nat, (∀ v ∈ l, (env v).isVariable = true) →
      (∀ v ∈ l, (r.varData v).isSome = true) →
      unrollValsLoop env r l =
        .ok (l.map (fun v => ((r.varData v).map Arr.data).getD [])).flatten := by
  intro l
  induction l with
  | nil => intro _ _; rfl
  | cons v vs ih =>
    intro hvar hval
    have hv := hvar v (List.mem_cons_self v vs)
    obtain ⟨a, hvd⟩ := Option.isSome_iff_exists.mp
      (hval v (List.mem_cons_self v vs))
    simp only [unrollValsLoop, hv, Bool.not_true, Bool.false_eq_true,
      if_false, hvd]
    rw [ih (fun w hw => hvar w (List.mem_cons_of_mem v hw))
      (fun w hw => hval w (List.mem_cons_of_mem v hw))]
    simp [hvd]


lemma attachLoop_roundTrip (env : NodeEnv) (params : List Rat) :
    ∀ (l : List Nat) (r : RunState) (ptr : Nat),
      (∀ v ∈ l, (env v).isVariable = true) →
      l.Nodup →
      (∀ v ∈ l, ∃ a, r.varData v = some a ∧ a.wf) →
      params.drop ptr =
        (l.map (fun v => ((r.varData v).map Arr.data).getD [])).flatten →
      (attachLoop env params l r ptr).2 = none ∧
      ∀ x, (attachLoop env params l r ptr).1.varData x = r.varData x := by
  intro l
  induction l with
  | nil => intro r ptr _ _ _ _; exact ⟨rfl, fun x => rfl⟩
  | cons v vs ih =>
    intro r ptr hvar hnd hval hdrop
    have hv := hvar v (List.mem_cons_self v vs)
    obtain ⟨a, hvd, hwf⟩ := hval v (List.mem_cons_self v vs)
    have hdrop1 : params.drop ptr =
        a.data ++ (vs.map (fun w => ((r.varData w).map Arr.data).getD [])).flatten := by
      rw [hdrop]
      simp [hvd]
    have hslice : (params.drop ptr).take a.size = a.data := by
      rw [hdrop1]
      exact List.take_left a.data _
    have hrs : reshape ((params.drop ptr).take a.size) a.shape = some a := by
      unfold reshape
      rw [hslice, if_pos (show a.data.length = a.shape.prod from hwf)]
    simp only [attachLoop, hv, Bool.not_true, Bool.false_eq_true, if_false,
      hvd]
    rw [hrs]
    dsimp only
    have hpoint : ∀ x, updFn r.varData v (some a) x = r.varData x := by
      intro x
      unfold updFn
      split
      · rename_i hx
        rw [hx, hvd]
      · rfl
    have hdrop2 : params.drop (ptr + a.size) =
        (vs.map (fun w => ((((
          { r with varData := (updFn r.varData v (some a)) } : RunState)).varData w).map
            Arr.data).getD [])).flatten := by
      have hdd : params.drop (ptr + a.size) = (params.drop ptr).drop a.size := by
        rw [List.drop_drop]
      rw [hdd, hdrop1]
      rw [show (a.data ++ (vs.map (fun w =>
        ((r.varData w).map Arr.data).getD [])).flatten).drop a.size =
          (vs.map (fun w => ((r.varData w).map Arr.data).getD [])).flatten
        from List.drop_left a.data _]
      refine congrArg List.flatten (List.map_congr_left ?_)
      intro w hw
      rw [show ({ r with varData := (updFn r.varData v (some a)) } :
        RunState).varData w = r.varData w from hpoint w]
    obtain ⟨he, hvq⟩ := ih { r with varData := (updFn r.varData v (some a)) }
      (ptr + a.size)
      (fun w hw => hvar w (List.mem_cons_of_mem v hw))
      (List.nodup_cons.mp hnd).2
      (fun w hw => by
        show ∃ b, updFn r.varData v (some a) w = some b ∧ b.wf
        rw [hpoint w]
        exact hval w (List.mem_cons_of_mem v hw))
      hdrop2
    exact ⟨he, fun x => (hvq x).trans (hpoint x)⟩


lemma attachParameters_eta (env : NodeEnv) (s : GraphState) (p : List Rat) :
    attachParameters env s p =
      ({ s with run := (attachLoop env p s.struct.gradientOps s.run 0).1 },
        (attachLoop env p s.struct.gradientOps s.run 0).2) := by
  unfold attachParameters
  rcases h : attachLoop env p s.struct.gradientOps s.run 0 with ⟨r, e⟩
  rfl


/-- **C2 (amended).** `attachParameters` performs no overall length
validation: whenever the vector covers the total target element count the
call succeeds — surplus entries are silently ignored — and when the
vector is too short it fails with a numpy reshape error at the first
target whose slice comes up short, not with a dedicated
`ParameterLengthMismatch`. -/
theorem C2_attachParameters_no_length_check (env : NodeEnv) (s : GraphState)
    (params : List Rat)
    (hvar : ∀ v ∈ s.struct.gradientOps, (env v).isVariable = true)
    (hval : ∀ v ∈ s.struct.gradientOps, ∃ a, s.run.varData v = some a ∧ a.wf)
    (hnd : s.struct.gradientOps.Nodup) :
    (totalParamLength s ≤ params.length →
      (attachParameters env s params).2 = none) ∧
    (params.length < totalParamLength s →
      (attachParameters env s params).2 = some .reshapeError) := by
  rw [attachParameters_eta]
  constructor
  · intro hle
    exact attachLoop_enough env params s.struct.gradientOps s.run 0 hvar hnd
      hval (by simpa [totalParamLength] using hle)
  · intro hlt
    exact attachLoop_short env params s.struct.gradientOps s.run 0 hvar hnd
      hval (Nat.zero_le _) (by simpa [totalParamLength] using hlt)


/-- Counterexample to C2 as stated: the total target element count is 1,
the vector has length 2, yet `attachParameters` raises nothing — it
assigns the aligned first entry and silently ignores the surplus. -/
theorem C2_counterexample :
    totalParamLength sC = 1 ∧
    (attachParameters envC sC [7, 9]).2 = none ∧
    (attachParameters envC sC [7, 9]).1.run.varData 0 = some ⟨[1], [7]⟩ := by
  refine ⟨by decide, by decide, by decide⟩


/-- Witness for the amended C2: on the same graph a one-short vector
fails with the reshape error. -/
theorem C2_attachParameters_no_length_check_witness :
    (attachParameters envC sC []).2 = some .reshapeError :=
  (C2_attachParameters_no_length_check envC sC []
    (fun v hv => rfl)
    (by
      intro v hv
      have hg : sC.struct.gradientOps = [0] := by decide
      rw [hg] at hv
      simp only [List.mem_singleton] at hv
      subst hv
      exact ⟨⟨[1], [5]⟩, by decide, by decide⟩)
    (by decide)).2 (by decide)


/-- **C4.** When every gradient target is a `Variable` holding a
well-formed value (and targets are pairwise distinct),
`attachParameters (unrollGradientParameters())` succeeds and is a no-op:
every node's data — in particular every target's value — is unchanged. -/
theorem C4_attach_unroll_roundTrip (env : NodeEnv) (s : GraphState)
    (hvar : ∀ v ∈ s.struct.gradientOps, (env v).isVariable = true)
    (hval : ∀ v ∈ s.struct.gradientOps, ∃ a, s.run.varData v = some a ∧ a.wf)
    (hnd : s.struct.gradientOps.Nodup) :
    ∃ vec, unrollGradientParameters env s = .ok vec ∧
      (attachParameters env s vec).2 = none ∧
      ∀ x, (attachParameters env s vec).1.run.varData x = s.run.varData x := by
  refine ⟨(s.struct.gradientOps.map
    (fun v => ((s.run.varData v).map Arr.data).getD [])).flatten, ?_, ?_, ?_⟩
  · exact unrollValsLoop_ok env s.run s.struct.gradientOps hvar
      (fun v hv => by obtain ⟨a, ha, _⟩ := hval v hv; rw [ha]; rfl)
  · rw [attachParameters_eta]
    exact (attachLoop_roundTrip env _ s.struct.gradientOps s.run 0 hvar hnd
      hval (by rw [List.drop_zero])).1
  · intro x
    rw [attachParameters_eta]
    exact (attachLoop_roundTrip env _ s.struct.gradientOps s.run 0 hvar hnd
      hval (by rw [List.drop_zero])).2 x


/-- Witness for C4 at the concrete graph `sC`. -/
theorem C4_attach_unroll_roundTrip_witness :
    ∃ vec, unrollGradientParameters envC sC = .ok vec ∧
      (attachParameters envC sC vec).2 = none ∧
      ∀ x, (attachParameters envC sC vec).1.run.varData x = sC.run.varData x :=
  C4_attach_unroll_roundTrip envC sC
    (fun v hv => rfl)
    (by
      intro v hv
      have hg : sC.struct.gradientOps = [0] := by decide
      rw [hg] at hv
      simp only [List.mem_singleton] at hv
      subst hv
      exact ⟨⟨[1], [5]⟩, by decide, by decide⟩)
    (by decide)


lemma unrollValsLoop_eq_collect (env : NodeEnv) (r : RunState) :
    ∀ l : List Nat,
      unrollValsLoop env r l =
        (collectValues env r l).map (fun vs => (vs.map Arr.data).flatten) := by
  intro l
  induction l with
  | nil => rfl
  | cons v vs ih =>
    by_cases hv : (env v).isVariable = true
    · simp only [unrollValsLoop, collectValues, hv, Bool.not_true,
        Bool.false_eq_true, if_false]
      cases hvd : r.varData v with
      | none => rfl
      | some a =>
        rw [ih]
        cases hres : collectValues env r vs with
        | ok rest => rfl
        | error e => rfl
    · have hv' : (env v).isVariable = false := by
        cases h : (env v).isVariable
        · rfl
        · exact absurd h hv
      simp only [unrollValsLoop, collectValues, hv', Bool.not_false, if_true]
      rfl


lemma collectValues_length (env : NodeEnv) (r : RunState) :
    ∀ (l : List Nat) (vs : List Arr),
      collectValues env r l = .ok vs → vs.length = l.length := by
  intro l
  induction l with
  | nil =>
    intro vs h
    cases h
    rfl
  | cons v tl ih =>
    intro vs h
    by_cases hv : (env v).isVariable = true
    · simp only [collectValues, hv, Bool.not_true, Bool.false_eq_true,
        if_false] at h
      cases hvd : r.varData v with
      | none => rw [hvd] at h; cases h
      | some a =>
        rw [hvd] at h
        cases hres : collectValues env r tl with
        | ok rest =>
          rw [hres] at h
          cases h
          simp [ih rest hres]
        | error e => rw [hres] at h; cases h
    · have hv' : (env v).isVariable = false := by
        cases hh : (env v).isVariable
        · rfl
        · exact absurd hh hv
      simp only [collectValues, hv', Bool.not_false, if_true] at h
      cases h


lemma collectGradients_length (env : NodeEnv) (st : GraphStruct) (fuel : Nat) :
    ∀ (l : List Nat) (r : RunState) (gs : List Arr),
      (collectGradients env st fuel l r).2 = .ok gs → gs.length = l.length := by
  intro l
  induction l with
  | nil =>
    intro r gs h
    cases h
    rfl
  | cons v tl ih =>
    intro r gs h
    by_cases hv : (env v).isVariable = true
    · simp only [collectGradients, hv, Bool.not_true, Bool.false_eq_true,
        if_false] at h
      cases hng : nodeGradient env st fuel v r with
      | mk r' go =>
        rw [hng] at h
        cases go with
        | none => cases h
        | some g =>
          dsimp only at h
          cases hres : collectGradients env st fuel tl r' with
          | mk r'' eres =>
            rw [hres] at h
            cases eres with
            | ok rest =>
              dsimp only at h
              cases h
              simp [ih r' rest (by rw [hres])]
            | error e => cases h
    · have hv' : (env v).isVariable = false := by
        cases hh : (env v).isVariable
        · rfl
        · exact absurd hh hv
      simp only [collectGradients, hv', Bool.not_false, if_true] at h
      cases h


/-- Segment extraction from a concatenation: component `i` occupies the
index range starting at the sum of the lengths of the components before
it. -/
lemma flatten_segment {α : Type} (ls : List (List α)) :
    ∀ (i : Nat) (h : i < ls.length),
      ((ls.flatten.drop (((ls.take i).map List.length).sum)).take
        (ls.get ⟨i, h⟩).length) = ls.get ⟨i, h⟩ := by
  induction ls with
  | nil => intro i h; exact absurd h (Nat.not_lt_zero i)
  | cons hd tl ih =>
    intro i h
    cases i with
    | zero =>
      simp only [List.take_zero, List.map_nil, List.sum_nil,
        List.drop_zero, List.flatten_cons, List.get]
      exact List.take_left hd _
    | succ j =>
      have hj : j < tl.length := by simpa using h
      simp only [List.take_succ_cons, List.map_cons, List.sum_cons,
        List.flatten_cons, List.get]
      rw [List.drop_append (((tl.take j).map List.length).sum)]
      exact ih j hj


/-- **C8.** `unrollGradients` flattens each gradient target's gradient in
the same gradient-target order as `unrollGradientParameters` flattens the
values; when each target's gradient has the element count of its value,
target `i` occupies exactly the index range starting at the sum of the
element counts of the earlier targets — with the same length — in both
output vectors. -/
theorem C8_codec_index_alignment (env : NodeEnv) (fuel : Nat) (s : GraphState)
    (vs gs : List Arr)
    (hv : collectValues env s.run s.struct.gradientOps = .ok vs)
    (hg : (collectGradients env s.struct fuel s.struct.gradientOps s.run).2 =
      .ok gs)
    (hsz : ∀ (i : Nat) (hiv : i < vs.length) (hig : i < gs.length),
      (gs.get ⟨i, hig⟩).size = (vs.get ⟨i, hiv⟩).size) :
    unrollGradientParameters env s = .ok (vs.map Arr.data).flatten ∧
    (unrollGradients env fuel s).2 = .ok (gs.map Arr.data).flatten ∧
    gs.length = vs.length ∧
    ∀ (i : Nat) (hiv : i < vs.length) (hig : i < gs.length),
      ((vs.map Arr.data).flatten.drop (((vs.take i).map Arr.size).sum)).take
          (vs.get ⟨i, hiv⟩).size = (vs.get ⟨i, hiv⟩).data ∧
      ((gs.map Arr.data).flatten.drop (((vs.take i).map Arr.size).sum)).take
          (vs.get ⟨i, hiv⟩).size = (gs.get ⟨i, hig⟩).data := by
  have hlen : gs.length = vs.length :=
    (collectGradients_length env s.struct fuel s.struct.gradientOps s.run gs
      hg).trans
      (collectValues_length env s.run s.struct.gradientOps vs hv).symm
  refine ⟨?_, ?_, hlen, ?_⟩
  · show unrollValsLoop env s.run s.struct.gradientOps = _
    rw [unrollValsLoop_eq_collect, hv]
    rfl
  · unfold unrollGradients
    cases hres : collectGradients env s.struct fuel s.struct.gradientOps s.run with
    | mk r e =>
      rw [hres] at hg
      dsimp only at hg
      subst hg
      rfl
  · intro i hiv hig
    have hofs1 : ((vs.map Arr.data).take i).map List.length =
        (vs.take i).map Arr.size := by
      rw [← List.map_take, List.map_map]
      rfl
    have hofs2 : (gs.take i).map Arr.size = (vs.take i).map Arr.size := by
      refine List.ext_getElem ?_ ?_
      · rw [List.length_map, List.length_map, List.length_take,
          List.length_take, hlen]
      · intro n h₁ h₂
        have hn1 : n < gs.length := by
          rw [List.length_map, List.length_take] at h₁
          omega
        have hn2 : n < vs.length := by omega
        simp only [List.getElem_map, List.getElem_take]
        exact hsz n hn2 hn1
    constructor
    · have hseg := flatten_segment (vs.map Arr.data) i
        (by rw [List.length_map]; exact hiv)
      rw [hofs1] at hseg
      have hget : (vs.map Arr.data).get
          ⟨i, by rw [List.length_map]; exact hiv⟩ =
          (vs.get ⟨i, hiv⟩).data := by
        simp [List.get_eq_getElem]
      rw [hget] at hseg
      exact hseg
    · have hseg := flatten_segment (gs.map Arr.data) i
        (by rw [List.length_map]; exact hig)
      have hofs3 : ((gs.map Arr.data).take i).map List.length =
          (vs.take i).map Arr.size := by
        rw [← List.map_take, List.map_map]
        exact hofs2
      rw [hofs3] at hseg
      have hget : (gs.map Arr.data).get
          ⟨i, by rw [List.length_map]; exact hig⟩ =
          (gs.get ⟨i, hig⟩).data := by
        simp [List.get_eq_getElem]
      rw [hget] at hseg
      rw [show (gs.get ⟨i, hig⟩).data.length = (vs.get ⟨i, hiv⟩).size from
        hsz i hiv hig] at hseg
      exact hseg


/-- Witness for C8 at the concrete graph `sC` (value `[5]`, gradient the
seed `[2]`, both of element count 1). -/
theorem C8_codec_index_alignment_witness :
    unrollGradientParameters envC sC =
      .ok ([(⟨[1], [5]⟩ : Arr)].map Arr.data).flatten ∧
    (unrollGradients envC 1 sC).2 =
      .ok ([(⟨[1], [2]⟩ : Arr)].map Arr.data).flatten :=
  ⟨(C8_codec_index_alignment envC 1 sC [⟨[1], [5]⟩] [⟨[1], [2]⟩]
      rfl rfl
      (by
        intro i hiv hig
        have h0 : i = 0 := Nat.lt_one_iff.mp hiv
        subst h0
        rfl)).1,
   (C8_codec_index_alignment envC 1 sC [⟨[1], [5]⟩] [⟨[1], [2]⟩]
      rfl rfl
      (by
        intro i hiv hig
        have h0 : i = 0 := Nat.lt_one_iff.mp hiv
        subst h0
        rfl)).2.1⟩

end GraphAttack
